import Mathlib

/-!
# Formal model of the NJ warehouse-jobs dashboard data engine (`app.py`)

This file embeds the data-processing core of `app.py` in Lean 4:

* `parse_salary_intelligently` — the salary-text parser (SalaryParser);
* `extractCity` / `canonicalize` — location handling (CityCanonicalizer);
* `normalizeRecord` / `clean_and_process_data` — record normalization;
* `applyFilters` — the filter block of `main` (FilterEngine);
* `nlargest` — the top-N outlier selection of the diagnostics panel.

Modelling conventions.  Python floats are embedded as exact rationals `ℚ`
(the float literal `173.33` becomes `17333 / 100`); Python strings are Lean
`String` / `List Char`; a value that may fail the Python test `isinstance(x, str)`
test is an `Option String` (`none` for any non-string, including a missing
field); the number extraction `re.findall` with pattern `\d+\.?\d*` is
embedded as the character-level
scanner `findNumbers`, which returns the same maximal unsigned-number
matches left to right; `str.lower()` is the ASCII lowering `Char.toLower`
mapped over the characters, and `str.strip()` trims ASCII whitespace.
-/

/-- Test `isPrefixOfChars n h`: true when the char list `n` is an initial
segment of `h`. -/
def isPrefixOfChars : List Char → List Char → Bool
  | [], _ => true
  | _ :: _, [] => false
  | a :: as, b :: bs => a == b && isPrefixOfChars as bs

/-- Test `containsSub n h`: true when `n` occurs as a contiguous substring
of `h`; it embeds the Python membership test `n in h` on strings. -/
def containsSub (needle : List Char) : List Char → Bool
  | [] => isPrefixOfChars needle []
  | c :: rest => isPrefixOfChars needle (c :: rest) || containsSub needle rest

/-- Line 55 of `app.py`, lower-casing and removing commas, as a char
list. -/
def lowerStrip (s : String) : List Char :=
  (s.data.map Char.toLower).filter (fun c => c != ',')

/-- State of the scanner for the regex `\d+\.?\d*`: outside any match,
inside the integer part, or past the optional decimal point. -/
inductive NumScan where
  | outside : NumScan
  | intPart (acc : List Char) : NumScan
  | fracPart (acc : List Char) : NumScan

/-- One left-to-right pass of the scanner for `re.findall` with pattern
`\d+\.?\d*`: a match is one or more digits, then an optional dot, then any
number of digits, always extended greedily. -/
def scanNumbersAux : NumScan → List Char → List (List Char)
  | NumScan.outside, [] => []
  | NumScan.intPart acc, [] => [acc]
  | NumScan.fracPart acc, [] => [acc]
  | NumScan.outside, c :: cs =>
      if c.isDigit then scanNumbersAux (NumScan.intPart [c]) cs
      else scanNumbersAux NumScan.outside cs
  | NumScan.intPart acc, c :: cs =>
      if c.isDigit then scanNumbersAux (NumScan.intPart (acc ++ [c])) cs
      else if c == '.' then scanNumbersAux (NumScan.fracPart (acc ++ [c])) cs
      else acc :: scanNumbersAux NumScan.outside cs
  | NumScan.fracPart acc, c :: cs =>
      if c.isDigit then scanNumbersAux (NumScan.fracPart (acc ++ [c])) cs
      else acc :: scanNumbersAux NumScan.outside cs

/-- All matches of the unsigned-number pattern `\d+\.?\d*` in the text,
left to right: the `re.findall` call on line 56 of `app.py`. -/
def findNumbers (l : List Char) : List (List Char) :=
  scanNumbersAux NumScan.outside l

/-- Numeric value of an ASCII digit character. -/
def digitVal (c : Char) : Nat := c.toNat - 48

/-- Value of a string of decimal digits. -/
def natOfDigits (l : List Char) : Nat :=
  l.foldl (fun n c => 10 * n + digitVal c) 0

/-- The digits after the decimal point of a number match (empty when there
is no point). -/
def fracDigits (l : List Char) : List Char :=
  (l.dropWhile (fun c => c != '.')).drop 1

/-- The Python `float` conversion on a match of `\d+\.?\d*` (digits,
optional point, digits), as an exact rational. -/
def parseDec (l : List Char) : ℚ :=
  (natOfDigits (l.takeWhile (fun c => c != '.')) : ℚ) +
    (natOfDigits (fracDigits l) : ℚ) / 10 ^ (fracDigits l).length

/-- Result of the salary parser: the converted hourly rate (`none` when the
text is unusable) and the pay-period label. -/
structure ParseResult where
  hourly_rate : Option ℚ
  pay_period : String
deriving DecidableEq, Repr

/-- The rationals extracted from a salary string: lower-case, strip commas,
find all number matches, convert each with `float`. -/
def salaryNums (str : String) : List ℚ :=
  (findNumbers (lowerStrip str)).map parseDec

/-- Variable `avg_salary` from line 58 of `app.py`: the arithmetic mean of
all extracted numbers. -/
def salaryAvg (str : String) : ℚ :=
  (salaryNums str).sum / ((salaryNums str).length : ℚ)

/-- Function `parse_salary_intelligently` from lines 53-63 of `app.py`.
A non-string input is `none`.  The float divisor `173.33` is the exact rational
`17333 / 100`. -/
def parse_salary_intelligently : Option String → ParseResult
  | none => { hourly_rate := none, pay_period := "Unknown" }
  | some str =>
      if (findNumbers (lowerStrip str)).isEmpty then
        { hourly_rate := none, pay_period := "Unknown" }
      else if containsSub "year".data (lowerStrip str) then
        { hourly_rate := some (salaryAvg str / 2080), pay_period := "Annual" }
      else if containsSub "month".data (lowerStrip str) then
        { hourly_rate := some (salaryAvg str / (17333 / 100)), pay_period := "Monthly" }
      else if containsSub "week".data (lowerStrip str) then
        { hourly_rate := some (salaryAvg str / 40), pay_period := "Weekly" }
      else if 2000 < salaryAvg str then
        { hourly_rate := some (salaryAvg str / 2080), pay_period := "Annual (Inferred)" }
      else
        { hourly_rate := some (salaryAvg str), pay_period := "Hourly" }

/-- Constant `CITY_NORMALIZATION_MAP` from lines 18-24 of `app.py`:
lower-cased raw city names mapped to their canonical form. -/
def CITY_NORMALIZATION_MAP : List (String × String) :=
  [("south brunswick township", "South Brunswick"),
   ("north brunswick township", "North Brunswick"),
   ("edison township", "Edison"),
   ("new brunswick city", "New Brunswick"),
   ("jersey city", "Jersey City")]

/-- ASCII version of the Python method `str.lower` on a whole string. -/
def lowerStr (s : String) : String := String.mk (s.data.map Char.toLower)

/-- Trim ASCII whitespace from both ends: the Python method `str.strip`. -/
def trimChars (l : List Char) : List Char :=
  ((l.dropWhile Char.isWhitespace).reverse.dropWhile Char.isWhitespace).reverse

/-- Line 75 of `app.py`: split the location on commas, keep the first
segment, trim it; `"Unknown"` for a missing location.  The first element
of the Python split is exactly the prefix of the string before its first
comma. -/
def extractCity (loc : Option String) : String :=
  match loc with
  | none => "Unknown"
  | some s => String.mk (trimChars (s.data.takeWhile (fun c => c != ',')))

/-- Line 76 of `app.py`, the lookup `CITY_NORMALIZATION_MAP.get` on the
lowered name with the name itself as default: case-insensitive alias
lookup, unmapped names pass through. -/
def canonicalize (name : String) : String :=
  match CITY_NORMALIZATION_MAP.lookup (lowerStr name) with
  | some canon => canon
  | none => name

/-- A raw document from the data source.  A field whose value may fail the
type tests of `app.py` is an `Option` (`none` covers both a missing field
and a non-string / non-list value). -/
structure RawRecord where
  title : Option String
  company : Option String
  location : Option String
  salary : Option String
  benefits : Option (List String)
  url : Option String
deriving DecidableEq, Repr

/-- A row of the cleaned DataFrame produced by `clean_and_process_data`. -/
structure CanonRecord where
  title : Option String
  company : Option String
  location : Option String
  salary : Option String
  hourly_rate : ℚ
  pay_period : String
  original_city : String
  city : String
  benefits : List String
  url : Option String
deriving DecidableEq, Repr

/-- The per-record content of `clean_and_process_data` (lines 49-81 of
`app.py`): parse the salary, drop the record when the rate is null
(`dropna`) or not positive (the filter on line 72), extract and
canonicalize the city, and coerce `benefits` to a list. -/
def normalizeRecord (r : RawRecord) : Option CanonRecord :=
  match (parse_salary_intelligently r.salary).hourly_rate with
  | none => none
  | some q =>
      if 0 < q then
        some {
          title := r.title
          company := r.company
          location := r.location
          salary := r.salary
          hourly_rate := q
          pay_period := (parse_salary_intelligently r.salary).pay_period
          original_city := extractCity r.location
          city := canonicalize (extractCity r.location)
          benefits := r.benefits.getD []
          url := r.url }
      else none

/-- Function `clean_and_process_data` viewed record-wise: an
order-preserving filter-map of `normalizeRecord` over the raw records. -/
def clean_and_process_data (rs : List RawRecord) : List CanonRecord :=
  rs.filterMap normalizeRecord

/-- The sidebar filter values of `display_sidebar`: selected city (the
sentinel `"-- All Cities --"` means no city restriction), accepted
pay-period labels, title keyword, and the inclusive hourly-rate range. -/
structure FilterCriteria where
  city : String
  pay_periods : List String
  keyword : String
  rangeLo : ℚ
  rangeHi : ℚ
deriving Repr

/-- Python regex metacharacters, by code point: the characters
`. ^ $ * + ?`, the two braces, the two square brackets, the backslash,
the vertical bar, and the two parentheses. -/
def isRegexMeta (c : Char) : Bool :=
  ([46, 94, 36, 42, 43, 63, 123, 125, 91, 93, 92, 124, 40, 41] : List Nat).contains c.toNat

/-- One token of the modelled regex subset: a literal character or the
any-character dot. -/
inductive RegexToken where
  | lit (c : Char) : RegexToken
  | dot : RegexToken
deriving DecidableEq, Repr

/-- Match of one token against one character under `re.IGNORECASE`: a
literal matches up to ASCII case, the dot matches anything but a
newline. -/
def tokenMatches : RegexToken → Char → Bool
  | RegexToken.lit a, c => a.toLower == c.toLower
  | RegexToken.dot, c => c != '\n'

/-- Match of a token sequence against an initial segment of the text. -/
def matchesAt : List RegexToken → List Char → Bool
  | [], _ => true
  | _ :: _, [] => false
  | t :: ts, c :: cs => tokenMatches t c && matchesAt ts cs

/-- The semantics of `re.search` for a quantifier-free pattern: some
contiguous slice of the text matches the token sequence. -/
def regexSearch (p : List RegexToken) : List Char → Bool
  | [] => matchesAt p []
  | c :: rest => matchesAt p (c :: rest) || regexSearch p rest

/-- Read a keyword as a pattern of the modelled regex subset: a dot
becomes the any-character token, every other character a literal.  This
is the Python pattern compilation restricted to keywords whose only
metacharacter is the dot; keywords using other metacharacters (or raising
`re.error`) are outside the model. -/
def parseTokens (l : List Char) : List RegexToken :=
  l.map (fun c => if c == '.' then RegexToken.dot else RegexToken.lit c)

/-- Line 232 of `app.py`: the pandas `str.contains` call with `case=False`
and `na=False` and its default of regex matching — `re.search` of the
keyword pattern against the title, case-insensitively; a missing title
never matches. -/
def titleMatches (kw : String) (title : Option String) : Bool :=
  match title with
  | none => false
  | some t => regexSearch (parseTokens kw.data) t.data

/-- Case-insensitive literal substring test of the keyword against a
title, as the claim words the keyword filter; a missing title never
matches. -/
def titleMatchesLiteral (kw : String) (title : Option String) : Bool :=
  match title with
  | none => false
  | some t => containsSub (lowerStr kw).data (lowerStr t).data

/-- The filter block of `main` (lines 221-232 of `app.py`): city filter
unless the sentinel is selected, then pay-period membership and inclusive
rate range, then — only when the keyword is non-empty — the title keyword
filter. -/
def applyFilters (df : List CanonRecord) (f : FilterCriteria) : List CanonRecord :=
  let d1 := if f.city == "-- All Cities --" then df
    else df.filter (fun r => r.city == f.city)
  let d2 := d1.filter (fun r =>
    f.pay_periods.contains r.pay_period &&
    decide (f.rangeLo ≤ r.hourly_rate) && decide (r.hourly_rate ≤ f.rangeHi))
  if f.keyword == "" then d2
  else d2.filter (fun r => titleMatches f.keyword r.title)

/-- Insert a record into a list sorted by descending `hourly_rate`, before
the first element whose rate is not larger (so an earlier record precedes
later records with an equal rate). -/
def insertDesc (a : CanonRecord) : List CanonRecord → List CanonRecord
  | [] => [a]
  | b :: l =>
      if a.hourly_rate < b.hourly_rate then b :: insertDesc a l
      else a :: b :: l

/-- Stable sort by descending `hourly_rate`. -/
def sortDesc : List CanonRecord → List CanonRecord
  | [] => []
  | a :: l => insertDesc a (sortDesc l)

/-- The pandas call `df.nlargest` on the hourly-rate column, line 133 of
`app.py`: the first `n` rows in descending `hourly_rate` order, earlier
rows kept first on ties (the pandas default of keeping first). -/
def nlargest (n : Nat) (l : List CanonRecord) : List CanonRecord :=
  (sortDesc l).take n

-- Scratch checks of the scanner against the Python regex.
example : findNumbers "$45000 - $50000 a year".data =
    [['4','5','0','0','0'], ['5','0','0','0','0']] := by decide
example : findNumbers "20.5".data = [['2','0','.','5']] := by decide
example : findNumbers "1.2.3".data = [['1','.','2'], ['3']] := by decide
example : findNumbers "12.x".data = [['1','2','.']] := by decide
example : findNumbers "abc".data = [] := by decide
example : lowerStrip "$45,000 - $50,000 A Year" = "$45000 - $50000 a year".data := by decide

/-- The classification decision tree, written from the words of §4.1 of the
spec: period keywords in the fixed priority order year, month, week, then
the magnitude heuristic, then hourly, the first match winning. -/
def classifySpec (s_lower : List Char) (avg : ℚ) : ParseResult :=
  if containsSub "year".data s_lower then
    { hourly_rate := some (avg / 2080), pay_period := "Annual" }
  else if containsSub "month".data s_lower then
    { hourly_rate := some (avg / (17333 / 100)), pay_period := "Monthly" }
  else if containsSub "week".data s_lower then
    { hourly_rate := some (avg / 40), pay_period := "Weekly" }
  else if 2000 < avg then
    { hourly_rate := some (avg / 2080), pay_period := "Annual (Inferred)" }
  else
    { hourly_rate := some avg, pay_period := "Hourly" }

/-- When at least one number is extracted, the parser follows the decision
tree of the spec on the lowered comma-stripped text and the mean. -/
lemma parse_some_eq (str : String) (h : findNumbers (lowerStrip str) ≠ []) :
    parse_salary_intelligently (some str) =
      classifySpec (lowerStrip str) (salaryAvg str) := by
  have hne : (findNumbers (lowerStrip str)).isEmpty = false := by
    simpa [List.isEmpty_iff] using h
  simp only [parse_salary_intelligently, hne, Bool.false_eq_true, if_false, classifySpec]

/-- A number match with no decimal point has the value of its digits. -/
lemma parseDec_of_digits (l : List Char) (n : ℕ)
    (h1 : l.takeWhile (fun c => c != '.') = l)
    (h2 : fracDigits l = [])
    (h3 : natOfDigits l = n) :
    parseDec l = (n : ℚ) := by
  rw [parseDec, h1, h2, h3]
  simp [natOfDigits]

/-- Mean of the running example `"$45,000 - $50,000 a year"`. -/
lemma avg_example45 : salaryAvg "$45,000 - $50,000 a year" = 47500 := by
  have hfn : findNumbers (lowerStrip "$45,000 - $50,000 a year") =
      [['4','5','0','0','0'], ['5','0','0','0','0']] := by decide
  have h1 : parseDec ['4','5','0','0','0'] = ((45000 : ℕ) : ℚ) :=
    parseDec_of_digits _ _ (by decide) (by decide) (by decide)
  have h2 : parseDec ['5','0','0','0','0'] = ((50000 : ℕ) : ℚ) :=
    parseDec_of_digits _ _ (by decide) (by decide) (by decide)
  rw [salaryAvg, salaryNums, hfn]
  simp [h1, h2]
  norm_num

/-- Parse of the running example. -/
lemma parse_example45 : parse_salary_intelligently (some "$45,000 - $50,000 a year") =
    { hourly_rate := some ((47500 : ℚ) / 2080), pay_period := "Annual" } := by
  have h := parse_some_eq "$45,000 - $50,000 a year" (by decide)
  rw [h, classifySpec]
  have hy : containsSub "year".data (lowerStrip "$45,000 - $50,000 a year") = true := by decide
  rw [if_pos hy, avg_example45]

/-- C1: with at least one extracted number, the parser classifies by the
fixed priority order year, month, week, magnitude heuristic, hourly — the
first match winning — with the stated conversion in each branch. -/
theorem salary_classification_priority (str : String)
    (h : findNumbers (lowerStrip str) ≠ []) :
    parse_salary_intelligently (some str) =
      classifySpec (lowerStrip str) (salaryAvg str) :=
  parse_some_eq str h

/-- Witness for C1 at the concrete input `"$30 a year"`. -/
theorem salary_classification_priority_witness :
    findNumbers (lowerStrip "$30 a year") ≠ [] ∧
    parse_salary_intelligently (some "$30 a year") =
      classifySpec (lowerStrip "$30 a year") (salaryAvg "$30 a year") :=
  ⟨by decide, salary_classification_priority "$30 a year" (by decide)⟩

/-- C2: the rate is always a conversion of the arithmetic mean of all
extracted numbers, and on `"$45,000 - $50,000 a year"` the mean is the
midpoint 47500, classified Annual with rate 47500 / 2080. -/
theorem salary_avg_mean_of_all (str : String)
    (h : findNumbers (lowerStrip str) ≠ []) :
    (∃ q, (parse_salary_intelligently (some str)).hourly_rate = some q ∧
      (q = salaryAvg str / 2080 ∨ q = salaryAvg str / (17333 / 100) ∨
       q = salaryAvg str / 40 ∨ q = salaryAvg str)) ∧
    salaryAvg str = (salaryNums str).sum / ((salaryNums str).length : ℚ) ∧
    parse_salary_intelligently (some "$45,000 - $50,000 a year") =
      { hourly_rate := some ((47500 : ℚ) / 2080), pay_period := "Annual" } ∧
    salaryAvg "$45,000 - $50,000 a year" = 47500 := by
  refine ⟨?_, rfl, parse_example45, avg_example45⟩
  rw [parse_some_eq str h, classifySpec]
  by_cases hy : containsSub "year".data (lowerStrip str) = true
  · exact ⟨_, by rw [if_pos hy], Or.inl rfl⟩
  · rw [if_neg hy]
    by_cases hm : containsSub "month".data (lowerStrip str) = true
    · exact ⟨_, by rw [if_pos hm], Or.inr (Or.inl rfl)⟩
    · rw [if_neg hm]
      by_cases hw : containsSub "week".data (lowerStrip str) = true
      · exact ⟨_, by rw [if_pos hw], Or.inr (Or.inr (Or.inl rfl))⟩
      · rw [if_neg hw]
        by_cases ha : 2000 < salaryAvg str
        · exact ⟨_, by rw [if_pos ha], Or.inl rfl⟩
        · exact ⟨_, by rw [if_neg ha], Or.inr (Or.inr (Or.inr rfl))⟩

/-- Witness for C2 at the example input given in the spec. -/
theorem salary_avg_mean_of_all_witness :
    findNumbers (lowerStrip "$45,000 - $50,000 a year") ≠ [] ∧
    ((∃ q, (parse_salary_intelligently (some "$45,000 - $50,000 a year")).hourly_rate = some q ∧
      (q = salaryAvg "$45,000 - $50,000 a year" / 2080 ∨
       q = salaryAvg "$45,000 - $50,000 a year" / (17333 / 100) ∨
       q = salaryAvg "$45,000 - $50,000 a year" / 40 ∨
       q = salaryAvg "$45,000 - $50,000 a year")) ∧
    salaryAvg "$45,000 - $50,000 a year" =
      (salaryNums "$45,000 - $50,000 a year").sum /
        ((salaryNums "$45,000 - $50,000 a year").length : ℚ) ∧
    parse_salary_intelligently (some "$45,000 - $50,000 a year") =
      { hourly_rate := some ((47500 : ℚ) / 2080), pay_period := "Annual" } ∧
    salaryAvg "$45,000 - $50,000 a year" = 47500) :=
  ⟨by decide, salary_avg_mean_of_all "$45,000 - $50,000 a year" (by decide)⟩

/-- Unfolding of a successful normalization: the rate comes from the salary
parser, is positive, and the salary text and pay-period label are kept. -/
lemma normalizeRecord_eq_some {r : RawRecord} {c : CanonRecord}
    (h : normalizeRecord r = some c) :
    (parse_salary_intelligently r.salary).hourly_rate = some c.hourly_rate ∧
    0 < c.hourly_rate ∧ c.salary = r.salary ∧
    c.pay_period = (parse_salary_intelligently r.salary).pay_period := by
  unfold normalizeRecord at h
  cases hpr : (parse_salary_intelligently r.salary).hourly_rate with
  | none => rw [hpr] at h; simp at h
  | some q =>
      rw [hpr] at h
      simp only [] at h
      by_cases hq : 0 < q
      · rw [if_pos hq] at h
        obtain rfl := Option.some.inj h
        exact ⟨rfl, hq, rfl, rfl⟩
      · rw [if_neg hq] at h
        simp at h

/-- C3: every record of the canonical dataset has a positive hourly rate;
a null or non-positive parsed rate never survives normalization. -/
theorem canonical_hourly_rate_pos (rs : List RawRecord) (c : CanonRecord)
    (h : c ∈ clean_and_process_data rs) : 0 < c.hourly_rate := by
  rw [clean_and_process_data, List.mem_filterMap] at h
  obtain ⟨r, _, hr⟩ := h
  exact (normalizeRecord_eq_some hr).2.1

/-- Mean of the sample salary text `"$20 an hour"`. -/
lemma avg_example20 : salaryAvg "$20 an hour" = 20 := by
  have hfn : findNumbers (lowerStrip "$20 an hour") = [['2','0']] := by decide
  have h1 : parseDec ['2','0'] = ((20 : ℕ) : ℚ) :=
    parseDec_of_digits _ _ (by decide) (by decide) (by decide)
  rw [salaryAvg, salaryNums, hfn]
  simp [h1]

/-- Parse of the sample salary text `"$20 an hour"`. -/
lemma parse_example20 : parse_salary_intelligently (some "$20 an hour") =
    { hourly_rate := some 20, pay_period := "Hourly" } := by
  rw [parse_some_eq "$20 an hour" (by decide), classifySpec]
  rw [if_neg (by decide), if_neg (by decide), if_neg (by decide), avg_example20]
  norm_num

/-- A sample raw record whose salary parses to the hourly rate 20. -/
def sampleRaw : RawRecord :=
  { title := some "Forklift Operator"
    company := some "Acme"
    location := some "Edison Township, NJ"
    salary := some "$20 an hour"
    benefits := none
    url := none }

/-- The canonical record produced from `sampleRaw`. -/
def sampleCanon : CanonRecord :=
  { title := some "Forklift Operator"
    company := some "Acme"
    location := some "Edison Township, NJ"
    salary := some "$20 an hour"
    hourly_rate := 20
    pay_period := "Hourly"
    original_city := "Edison Township"
    city := "Edison"
    benefits := []
    url := none }

/-- Normalizing `sampleRaw` yields `sampleCanon`. -/
lemma normalize_sample : normalizeRecord sampleRaw = some sampleCanon := by
  have hs : sampleRaw.salary = some "$20 an hour" := rfl
  unfold normalizeRecord
  rw [hs, parse_example20]
  norm_num
  decide

/-- The canonical dataset of the single raw sample record. -/
lemma clean_sample : clean_and_process_data [sampleRaw] = [sampleCanon] := by
  simp [clean_and_process_data, List.filterMap, normalize_sample]

/-- Witness for C3 at a concrete one-record dataset. -/
theorem canonical_hourly_rate_pos_witness :
    sampleCanon ∈ clean_and_process_data [sampleRaw] ∧
    0 < sampleCanon.hourly_rate :=
  ⟨by rw [clean_sample]; exact List.mem_singleton.mpr rfl,
   canonical_hourly_rate_pos [sampleRaw] sampleCanon
     (by rw [clean_sample]; exact List.mem_singleton.mpr rfl)⟩

/-- Whenever the parser returns a numeric rate, its label is one of the
five productive labels. -/
lemma parse_labels {s : Option String} {q : ℚ}
    (h : (parse_salary_intelligently s).hourly_rate = some q) :
    (parse_salary_intelligently s).pay_period ∈
      (["Hourly", "Weekly", "Monthly", "Annual", "Annual (Inferred)"] : List String) := by
  cases s with
  | none => simp [parse_salary_intelligently] at h
  | some str =>
      by_cases he : (findNumbers (lowerStrip str)).isEmpty = true
      · rw [parse_salary_intelligently] at h
        rw [if_pos he] at h
        simp at h
      · have hne : findNumbers (lowerStrip str) ≠ [] := by
          simpa [List.isEmpty_iff] using he
        rw [parse_some_eq str hne, classifySpec]
        by_cases hy : containsSub "year".data (lowerStrip str) = true
        · rw [if_pos hy]; simp
        · rw [if_neg hy]
          by_cases hm : containsSub "month".data (lowerStrip str) = true
          · rw [if_pos hm]; simp
          · rw [if_neg hm]
            by_cases hw : containsSub "week".data (lowerStrip str) = true
            · rw [if_pos hw]; simp
            · rw [if_neg hw]
              by_cases ha : 2000 < salaryAvg str
              · rw [if_pos ha]; simp
              · rw [if_neg ha]; simp

/-- C9: every canonical record carries one of the five productive
pay-period labels; the label `"Unknown"` never survives normalization. -/
theorem canonical_pay_period_labels (rs : List RawRecord) (c : CanonRecord)
    (h : c ∈ clean_and_process_data rs) :
    c.pay_period ∈
      (["Hourly", "Weekly", "Monthly", "Annual", "Annual (Inferred)"] : List String) ∧
    c.pay_period ≠ "Unknown" := by
  rw [clean_and_process_data, List.mem_filterMap] at h
  obtain ⟨r, _, hr⟩ := h
  obtain ⟨hrate, _, _, hpp⟩ := normalizeRecord_eq_some hr
  have hmem := parse_labels hrate
  rw [hpp]
  refine ⟨hmem, ?_⟩
  intro heq
  rw [heq] at hmem
  simp at hmem

/-- Witness for C9 at a concrete one-record dataset. -/
theorem canonical_pay_period_labels_witness :
    sampleCanon ∈ clean_and_process_data [sampleRaw] ∧
    (sampleCanon.pay_period ∈
      (["Hourly", "Weekly", "Monthly", "Annual", "Annual (Inferred)"] : List String) ∧
     sampleCanon.pay_period ≠ "Unknown") :=
  ⟨by rw [clean_sample]; exact List.mem_singleton.mpr rfl,
   canonical_pay_period_labels [sampleRaw] sampleCanon
     (by rw [clean_sample]; exact List.mem_singleton.mpr rfl)⟩

/-- Characterization of `isDigit` in terms of the code point. -/
lemma isDigit_toNat (c : Char) : c.isDigit = true ↔ 48 ≤ c.toNat ∧ c.toNat ≤ 57 := by
  rw [Char.isDigit]
  simp [UInt32.le_def, BitVec.le_def, Char.toNat, UInt32.toNat]

/-- Code point of `Char.ofNat` at a valid code point. -/
lemma toNat_ofNat_valid (n : Nat) (h : n.isValidChar) : (Char.ofNat n).toNat = n := by
  rw [Char.ofNat, dif_pos h]
  rfl

/-- ASCII lowering maps digits to digits and non-digits to non-digits. -/
lemma toLower_isDigit (c : Char) : (Char.toLower c).isDigit = c.isDigit := by
  rw [Char.toLower]
  show (if c.toNat ≥ 65 ∧ c.toNat ≤ 90 then Char.ofNat (c.toNat + 32) else c).isDigit = c.isDigit
  by_cases h : c.toNat ≥ 65 ∧ c.toNat ≤ 90
  · rw [if_pos h]
    have hv : (c.toNat + 32).isValidChar := Or.inl (by omega)
    have ht : (Char.ofNat (c.toNat + 32)).toNat = c.toNat + 32 := toNat_ofNat_valid _ hv
    have h1 : (Char.ofNat (c.toNat + 32)).isDigit = false := by
      rw [Bool.eq_false_iff]
      intro hd
      have hb := (isDigit_toNat _).mp hd
      rw [ht] at hb
      omega
    have h2 : c.isDigit = false := by
      rw [Bool.eq_false_iff]
      intro hd
      have hb := (isDigit_toNat _).mp hd
      omega
    rw [h1, h2]
  · rw [if_neg h]

/-- The scanner finds no match in a digit-free text. -/
lemma scan_no_digits (l : List Char) (h : ∀ c ∈ l, c.isDigit = false) :
    scanNumbersAux NumScan.outside l = [] := by
  induction l with
  | nil => rfl
  | cons c cs ih =>
      rw [scanNumbersAux]
      rw [h c (List.mem_cons_self c cs)]
      exact ih (fun d hd => h d (List.mem_cons_of_mem c hd))

/-- C5: a non-string input, and any string input containing no digit,
parse to a null rate with the label `"Unknown"`. -/
theorem no_digits_unknown (s : String) (h : ∀ c ∈ s.data, c.isDigit = false) :
    parse_salary_intelligently none = { hourly_rate := none, pay_period := "Unknown" } ∧
    parse_salary_intelligently (some s) = { hourly_rate := none, pay_period := "Unknown" } := by
  refine ⟨rfl, ?_⟩
  have hlow : ∀ c ∈ lowerStrip s, c.isDigit = false := by
    intro c hc
    rw [lowerStrip] at hc
    have hc2 := List.mem_of_mem_filter hc
    obtain ⟨c0, hc0, rfl⟩ := List.mem_map.mp hc2
    rw [toLower_isDigit]
    exact h c0 hc0
  have hfn : findNumbers (lowerStrip s) = [] := scan_no_digits _ hlow
  rw [parse_salary_intelligently]
  rw [if_pos (by rw [hfn]; rfl)]

/-- Witness for C5 at the digit-free input `"competitive pay"`. -/
theorem no_digits_unknown_witness :
    (∀ c ∈ "competitive pay".data, c.isDigit = false) ∧
    (parse_salary_intelligently none = { hourly_rate := none, pay_period := "Unknown" } ∧
     parse_salary_intelligently (some "competitive pay") =
       { hourly_rate := none, pay_period := "Unknown" }) :=
  ⟨by decide, no_digits_unknown "competitive pay" (by decide)⟩

/-- Every extracted number is non-negative: the pattern has no sign. -/
lemma parseDec_nonneg (l : List Char) : 0 ≤ parseDec l := by
  rw [parseDec]
  positivity

/-- The mean of the extracted numbers is non-negative. -/
lemma salaryAvg_nonneg (str : String) : 0 ≤ salaryAvg str := by
  rw [salaryAvg]
  refine div_nonneg (List.sum_nonneg ?_) (by positivity)
  intro x hx
  rw [salaryNums] at hx
  obtain ⟨y, _, rfl⟩ := List.mem_map.mp hx
  exact parseDec_nonneg y

/-- Mean of the sample salary text `"-5 an hour"`. -/
lemma avg_example5 : salaryAvg "-5 an hour" = 5 := by
  have hfn : findNumbers (lowerStrip "-5 an hour") = [['5']] := by decide
  have h1 : parseDec ['5'] = ((5 : ℕ) : ℚ) :=
    parseDec_of_digits _ _ (by decide) (by decide) (by decide)
  rw [salaryAvg, salaryNums, hfn]
  simp [h1]

/-- C10: the parser never returns a negative rate — the number pattern is
unsigned, so `"-5 an hour"` parses as the hourly rate 5, not -5. -/
theorem hourly_rate_nonneg (s : Option String) :
    ((parse_salary_intelligently s).hourly_rate = none ∨
     ∃ q, (parse_salary_intelligently s).hourly_rate = some q ∧ 0 ≤ q) ∧
    parse_salary_intelligently (some "-5 an hour") =
      { hourly_rate := some 5, pay_period := "Hourly" } := by
  constructor
  · cases s with
    | none => exact Or.inl rfl
    | some str =>
        by_cases he : (findNumbers (lowerStrip str)).isEmpty = true
        · refine Or.inl ?_
          rw [parse_salary_intelligently, if_pos he]
        · have hne : findNumbers (lowerStrip str) ≠ [] := by
            simpa [List.isEmpty_iff] using he
          have havg := salaryAvg_nonneg str
          refine Or.inr ?_
          rw [parse_some_eq str hne, classifySpec]
          by_cases hy : containsSub "year".data (lowerStrip str) = true
          · rw [if_pos hy]; exact ⟨_, rfl, by positivity⟩
          · rw [if_neg hy]
            by_cases hm : containsSub "month".data (lowerStrip str) = true
            · rw [if_pos hm]; exact ⟨_, rfl, by positivity⟩
            · rw [if_neg hm]
              by_cases hw : containsSub "week".data (lowerStrip str) = true
              · rw [if_pos hw]; exact ⟨_, rfl, by positivity⟩
              · rw [if_neg hw]
                by_cases ha : 2000 < salaryAvg str
                · rw [if_pos ha]; exact ⟨_, rfl, by positivity⟩
                · rw [if_neg ha]; exact ⟨_, rfl, havg⟩
  · rw [parse_some_eq "-5 an hour" (by decide), classifySpec]
    rw [if_neg (by decide), if_neg (by decide), if_neg (by decide), avg_example5]
    norm_num

/-- Read a canonical record back as a raw record, field for field — the
canonical dataset keeps the original `salary` and `location` text. -/
def toRaw (c : CanonRecord) : RawRecord :=
  { title := c.title
    company := c.company
    location := c.location
    salary := c.salary
    benefits := some c.benefits
    url := c.url }

/-- Re-normalizing a record whose salary parses to its own positive rate
reproduces that rate. -/
lemma reparse_toRaw (c : CanonRecord)
    (hrate : (parse_salary_intelligently c.salary).hourly_rate = some c.hourly_rate)
    (hpos : 0 < c.hourly_rate) :
    ∃ c', normalizeRecord (toRaw c) = some c' ∧ c'.hourly_rate = c.hourly_rate := by
  have hs : (toRaw c).salary = c.salary := rfl
  unfold normalizeRecord
  rw [hs, hrate]
  simp only []
  rw [if_pos hpos]
  exact ⟨_, rfl, rfl⟩

/-- Mapping normalization over records that each re-normalize to the same
rate keeps the list of rates. -/
lemma rerun_aux (l : List CanonRecord)
    (h : ∀ c ∈ l, ∃ c', normalizeRecord (toRaw c) = some c' ∧
      c'.hourly_rate = c.hourly_rate) :
    (clean_and_process_data (l.map toRaw)).map (fun c => c.hourly_rate) =
      l.map (fun c => c.hourly_rate) := by
  induction l with
  | nil => rfl
  | cons a l ih =>
      obtain ⟨c', hc', hr⟩ := h a (List.mem_cons_self a l)
      have ih2 := ih (fun c hc => h c (List.mem_cons_of_mem a hc))
      simp only [clean_and_process_data, List.map_cons, List.filterMap_cons, hc'] at ih2 ⊢
      rw [hr, ih2]

/-- C6: re-running normalization on the canonical dataset, reading each
canonical record as raw, changes no hourly rate (every salary text is
unchanged by normalization). -/
theorem normalize_idempotent_rates (rs : List RawRecord) :
    (clean_and_process_data ((clean_and_process_data rs).map toRaw)).map
        (fun c => c.hourly_rate) =
      (clean_and_process_data rs).map (fun c => c.hourly_rate) := by
  apply rerun_aux
  intro c hc
  rw [clean_and_process_data, List.mem_filterMap] at hc
  obtain ⟨r, _, hr⟩ := hc
  obtain ⟨hrate, hpos, hsal, _⟩ := normalizeRecord_eq_some hr
  refine reparse_toRaw c ?_ hpos
  rw [hsal]
  exact hrate

/-- The filter criteria as one conjunctive predicate, following the
amended claim: city match (skipped for the all-cities sentinel),
pay-period membership, inclusive rate range, and — for a non-empty
keyword — the case-insensitive regex keyword match on the title. -/
def specFilterPred (f : FilterCriteria) (r : CanonRecord) : Bool :=
  (f.city == "-- All Cities --" || r.city == f.city) &&
  (f.pay_periods.contains r.pay_period &&
  (decide (f.rangeLo ≤ r.hourly_rate) &&
  (decide (r.hourly_rate ≤ f.rangeHi) &&
  (f.keyword == "" || titleMatches f.keyword r.title))))

/-- The conjunctive predicate exactly as the original claim words its
keyword conjunct: a literal case-insensitive substring test. -/
def claimFilterPred (f : FilterCriteria) (r : CanonRecord) : Bool :=
  (f.city == "-- All Cities --" || r.city == f.city) &&
  (f.pay_periods.contains r.pay_period &&
  (decide (f.rangeLo ≤ r.hourly_rate) &&
  (decide (r.hourly_rate ≤ f.rangeHi) &&
  (f.keyword == "" || titleMatchesLiteral f.keyword r.title))))

/-- The sequential filter block equals one filter by the conjunctive
predicate. -/
lemma applyFilters_eq_filter (df : List CanonRecord) (f : FilterCriteria) :
    applyFilters df f = df.filter (specFilterPred f) := by
  rw [applyFilters]
  by_cases hc : (f.city == "-- All Cities --") = true
  · by_cases hk : (f.keyword == "") = true
    · simp only [hc, if_true, hk]
      refine List.filter_congr ?_
      intro r _
      simp [specFilterPred, hc, hk, Bool.and_assoc, Bool.and_comm, Bool.and_left_comm]
    · have hk' : (f.keyword == "") = false := by
        simpa using hk
      simp only [hc, if_true, hk', Bool.false_eq_true, if_false, List.filter_filter]
      refine List.filter_congr ?_
      intro r _
      simp [specFilterPred, hc, hk', Bool.and_assoc, Bool.and_comm, Bool.and_left_comm]
  · have hc' : (f.city == "-- All Cities --") = false := by
      simpa using hc
    by_cases hk : (f.keyword == "") = true
    · simp only [hc', Bool.false_eq_true, if_false, hk, if_true, List.filter_filter]
      refine List.filter_congr ?_
      intro r _
      simp [specFilterPred, hc', hk, Bool.and_assoc, Bool.and_comm, Bool.and_left_comm]
    · have hk' : (f.keyword == "") = false := by
        simpa using hk
      simp only [hc', Bool.false_eq_true, if_false, hk', List.filter_filter]
      refine List.filter_congr ?_
      intro r _
      simp [specFilterPred, hc', hk', Bool.and_assoc, Bool.and_comm, Bool.and_left_comm]

/-- Matching a literal-only pattern is the case-lowered prefix test. -/
lemma matchesAt_lit_lower (kw : List Char) : ∀ l : List Char,
    matchesAt (kw.map RegexToken.lit) l =
      isPrefixOfChars (kw.map Char.toLower) (l.map Char.toLower) := by
  induction kw with
  | nil => intro l; cases l <;> rfl
  | cons a kw ih =>
      intro l
      cases l with
      | nil => rfl
      | cons c cs => simp [matchesAt, isPrefixOfChars, tokenMatches, ih cs]

/-- Searching a literal-only pattern is the case-lowered substring test. -/
lemma regexSearch_lit_lower (kw : List Char) : ∀ l : List Char,
    regexSearch (kw.map RegexToken.lit) l =
      containsSub (kw.map Char.toLower) (l.map Char.toLower) := by
  intro l
  induction l with
  | nil => simp [regexSearch, containsSub, matchesAt_lit_lower]
  | cons c cs ih => simp [regexSearch, containsSub, matchesAt_lit_lower, ih]

/-- A keyword without regex metacharacters compiles to literal tokens. -/
lemma parseTokens_no_meta (l : List Char) (h : ∀ c ∈ l, isRegexMeta c = false) :
    parseTokens l = l.map RegexToken.lit := by
  rw [parseTokens]
  refine List.map_congr_left ?_
  intro c hc
  have hdot : c ≠ '.' := by
    intro heq
    subst heq
    exact absurd (h '.' hc) (by decide)
  have hb : (c == '.') = false := by
    simpa using hdot
  simp [hb]

/-- On metacharacter-free keywords the regex keyword filter is the
literal substring filter. -/
lemma titleMatches_eq_literal (kw : String)
    (h : ∀ c ∈ kw.data, isRegexMeta c = false) (title : Option String) :
    titleMatches kw title = titleMatchesLiteral kw title := by
  cases title with
  | none => rfl
  | some t =>
      simp only [titleMatches, titleMatchesLiteral]
      rw [parseTokens_no_meta kw.data h, regexSearch_lit_lower]
      rfl

/-- C4 (amended): for every keyword inside the modelled regex subset
(no metacharacter other than the dot), the sequential filter block keeps
exactly the records satisfying the conjunction of city match (skipped for
the all-cities sentinel), pay-period membership, inclusive rate range,
and — for a non-empty keyword — the case-insensitive regex match of the
keyword against the title, a missing title never matching; when the
keyword contains no metacharacter at all this regex match is the literal
case-insensitive substring test of the original claim. -/
theorem filter_engine_conjunction (df : List CanonRecord) (f : FilterCriteria)
    (_hkw : ∀ c ∈ f.keyword.data, (isRegexMeta c && c != '.') = false) :
    applyFilters df f = df.filter (specFilterPred f) ∧
    ((∀ c ∈ f.keyword.data, isRegexMeta c = false) →
      ∀ title, titleMatches f.keyword title = titleMatchesLiteral f.keyword title) :=
  ⟨applyFilters_eq_filter df f, fun h title => titleMatches_eq_literal f.keyword h title⟩

/-- Filter criteria with the metacharacter-free keyword `"operator"`. -/
def litCriteria : FilterCriteria :=
  { city := "-- All Cities --"
    pay_periods := ["Hourly"]
    keyword := "operator"
    rangeLo := 0
    rangeHi := 100 }

/-- Witness for C4 at a one-record dataset and the keyword `"operator"`. -/
theorem filter_engine_conjunction_witness :
    (∀ c ∈ litCriteria.keyword.data, (isRegexMeta c && c != '.') = false) ∧
    (applyFilters [sampleCanon] litCriteria =
        [sampleCanon].filter (specFilterPred litCriteria) ∧
     ((∀ c ∈ litCriteria.keyword.data, isRegexMeta c = false) →
       ∀ title, titleMatches litCriteria.keyword title =
         titleMatchesLiteral litCriteria.keyword title)) :=
  ⟨by decide, filter_engine_conjunction [sampleCanon] litCriteria (by decide)⟩

/-- Filter criteria whose keyword is the regex any-character dot. -/
def dotCriteria : FilterCriteria :=
  { city := "-- All Cities --"
    pay_periods := ["Hourly"]
    keyword := "."
    rangeLo := 0
    rangeHi := 100 }

/-- C4 counterexample: with keyword `"."` the filter block of the program
keeps the sample record — the regex dot matches any title character —
while the literal-substring conjunction of the claim rejects it, since
the title `"Forklift Operator"` contains no dot; the claim as stated is
false on the code. -/
theorem filter_keyword_not_literal :
    applyFilters [sampleCanon] dotCriteria = [sampleCanon] ∧
    [sampleCanon].filter (claimFilterPred dotCriteria) = [] := by
  constructor
  · decide
  · decide

/-- The part of a list left by `dropWhile` either is empty or starts with
a character failing the predicate. -/
lemma dropWhile_head_false (p : Char → Bool) (l : List Char) :
    l.dropWhile p = [] ∨ ∃ c t, l.dropWhile p = c :: t ∧ p c = false := by
  induction l with
  | nil => exact Or.inl rfl
  | cons a l ih =>
      rw [List.dropWhile_cons]
      by_cases h : p a = true
      · rw [if_pos h]
        exact ih
      · rw [if_neg h]
        exact Or.inr ⟨a, l, rfl, by simpa using h⟩

/-- C7: a missing location extracts to `"Unknown"`; a present location
extracts to the trimmed comma-free prefix before the first comma; the alias
table maps `"South Brunswick Township"` (case-insensitively) to
`"South Brunswick"`; a name outside the table passes through unchanged. -/
theorem city_extract_canonicalize (s name : String)
    (h : CITY_NORMALIZATION_MAP.lookup (lowerStr name) = none) :
    extractCity none = "Unknown" ∧
    (∃ pre post, s.data = pre ++ post ∧ (∀ c ∈ pre, c ≠ ',') ∧
      (post = [] ∨ ∃ t, post = ',' :: t) ∧
      extractCity (some s) = String.mk (trimChars pre)) ∧
    canonicalize "South Brunswick Township" = "South Brunswick" ∧
    canonicalize name = name := by
  refine ⟨rfl, ?_, by decide, ?_⟩
  · refine ⟨s.data.takeWhile (fun c => c != ','),
      s.data.dropWhile (fun c => c != ','), ?_, ?_, ?_, rfl⟩
    · exact (List.takeWhile_append_dropWhile _ _).symm
    · intro c hc
      have hp := List.mem_takeWhile_imp hc
      simpa using hp
    · rcases dropWhile_head_false (fun c => c != ',') s.data with h0 | ⟨c, t, heq, hc⟩
      · exact Or.inl h0
      · refine Or.inr ⟨t, ?_⟩
        have hcomma : c = ',' := by simpa using hc
        rw [heq, hcomma]
  · unfold canonicalize
    rw [h]

/-- Witness for C7 at the example location of the spec and an unmapped
name. -/
theorem city_extract_canonicalize_witness :
    CITY_NORMALIZATION_MAP.lookup (lowerStr "Trenton") = none ∧
    (extractCity none = "Unknown" ∧
    (∃ pre post, "South Brunswick Township, NJ".data = pre ++ post ∧
      (∀ c ∈ pre, c ≠ ',') ∧
      (post = [] ∨ ∃ t, post = ',' :: t) ∧
      extractCity (some "South Brunswick Township, NJ") = String.mk (trimChars pre)) ∧
    canonicalize "South Brunswick Township" = "South Brunswick" ∧
    canonicalize "Trenton" = "Trenton") :=
  ⟨by decide, city_extract_canonicalize "South Brunswick Township, NJ" "Trenton" (by decide)⟩

/-- The descending order on records compared by `hourly_rate`. -/
def rateGE (x y : CanonRecord) : Prop := y.hourly_rate ≤ x.hourly_rate

/-- Inserting is a permutation of prepending. -/
lemma insertDesc_perm (a : CanonRecord) (l : List CanonRecord) :
    (insertDesc a l).Perm (a :: l) := by
  induction l with
  | nil => exact List.Perm.refl _
  | cons b l ih =>
      rw [insertDesc]
      by_cases hc : a.hourly_rate < b.hourly_rate
      · rw [if_pos hc]
        exact (ih.cons b).trans (List.Perm.swap a b l)
      · rw [if_neg hc]

/-- The stable sort is a permutation of its input. -/
lemma sortDesc_perm (l : List CanonRecord) : (sortDesc l).Perm l := by
  induction l with
  | nil => exact List.Perm.refl _
  | cons a l ih =>
      rw [sortDesc]
      exact (insertDesc_perm a (sortDesc l)).trans (ih.cons a)

/-- Inserting into a descending-sorted list keeps it sorted. -/
lemma sorted_insertDesc (a : CanonRecord) (l : List CanonRecord)
    (h : List.Sorted rateGE l) : List.Sorted rateGE (insertDesc a l) := by
  induction l with
  | nil => simp [insertDesc, rateGE]
  | cons b l ih =>
      rw [insertDesc]
      rw [List.sorted_cons] at h
      by_cases hc : a.hourly_rate < b.hourly_rate
      · rw [if_pos hc]
        rw [List.sorted_cons]
        refine ⟨?_, ih h.2⟩
        intro x hx
        have hx2 : x ∈ a :: l := (insertDesc_perm a l).mem_iff.mp hx
        rcases List.mem_cons.mp hx2 with rfl | hx3
        · exact le_of_lt hc
        · exact h.1 x hx3
      · rw [if_neg hc]
        push_neg at hc
        rw [List.sorted_cons, List.sorted_cons]
        refine ⟨?_, h.1, h.2⟩
        intro x hx
        rcases List.mem_cons.mp hx with rfl | hx2
        · exact hc
        · exact le_trans (h.1 x hx2) hc

/-- The stable sort is sorted by descending rate. -/
lemma sorted_sortDesc (l : List CanonRecord) : List.Sorted rateGE (sortDesc l) := by
  induction l with
  | nil => simp [sortDesc]
  | cons a l ih =>
      rw [sortDesc]
      exact sorted_insertDesc a (sortDesc l) ih

/-- Insertion preserves the sublist of records at any fixed rate. -/
lemma filter_insertDesc (a : CanonRecord) (l : List CanonRecord) (q : ℚ) :
    (insertDesc a l).filter (fun r => r.hourly_rate == q) =
      (a :: l).filter (fun r => r.hourly_rate == q) := by
  induction l with
  | nil => rfl
  | cons b l ih =>
      rw [insertDesc]
      by_cases hc : a.hourly_rate < b.hourly_rate
      · rw [if_pos hc]
        by_cases hbq : (b.hourly_rate == q) = true
        · by_cases haq : (a.hourly_rate == q) = true
          · exfalso
            rw [beq_iff_eq] at hbq haq
            rw [hbq, haq] at hc
            exact lt_irrefl q hc
          · have haq' : (a.hourly_rate == q) = false := by
              simpa using haq
            simp [List.filter_cons, hbq, haq', ih]
        · have hbq' : (b.hourly_rate == q) = false := by
            simpa using hbq
          simp [List.filter_cons, hbq', ih]
      · rw [if_neg hc]

/-- Stability: sorting preserves the input order of records sharing an
`hourly_rate` value. -/
lemma filter_sortDesc (l : List CanonRecord) (q : ℚ) :
    (sortDesc l).filter (fun r => r.hourly_rate == q) =
      l.filter (fun r => r.hourly_rate == q) := by
  induction l with
  | nil => rfl
  | cons a l ih =>
      rw [sortDesc, filter_insertDesc]
      simp only [List.filter_cons]
      rw [ih]

/-- C8: `nlargest` returns records sorted by descending rate; it selects
from a permutation of the input; every kept record dominates every dropped
record; ties keep input order (stability); and when the input has at most
`n` records the whole sorted input is returned, without error. -/
theorem nlargest_top_desc_stable (n : Nat) (l : List CanonRecord) :
    List.Sorted rateGE (nlargest n l) ∧
    (sortDesc l).Perm l ∧
    (∀ a ∈ nlargest n l, ∀ b ∈ (sortDesc l).drop n, b.hourly_rate ≤ a.hourly_rate) ∧
    (∀ q : ℚ, (sortDesc l).filter (fun r => r.hourly_rate == q) =
      l.filter (fun r => r.hourly_rate == q)) ∧
    (l.length ≤ n → nlargest n l = sortDesc l) := by
  have hsorted := sorted_sortDesc l
  refine ⟨?_, sortDesc_perm l, ?_, filter_sortDesc l, ?_⟩
  · exact List.Pairwise.sublist (List.take_sublist n (sortDesc l)) hsorted
  · intro a ha b hb
    have hsplit := List.take_append_drop n (sortDesc l)
    rw [← hsplit] at hsorted
    have := (List.pairwise_append.mp hsorted).2.2
    exact this a ha b hb
  · intro hlen
    rw [nlargest]
    refine List.take_of_length_le ?_
    rw [(sortDesc_perm l).length_eq]
    exact hlen

/-- A second sample canonical record with a higher rate. -/
def sampleCanon2 : CanonRecord :=
  { sampleCanon with hourly_rate := 30, salary := some "$30 an hour" }

/-- Witness for C8: on a two-record dataset, asking for the top ten
returns the whole sorted dataset. -/
theorem nlargest_top_desc_stable_witness :
    ([sampleCanon, sampleCanon2] : List CanonRecord).length ≤ 10 ∧
    nlargest 10 [sampleCanon, sampleCanon2] = sortDesc [sampleCanon, sampleCanon2] :=
  ⟨by decide,
   (nlargest_top_desc_stable 10 [sampleCanon, sampleCanon2]).2.2.2.2 (by decide)⟩
